import Mathlib

/-!
# Verification of the aquawatch-frontend client helpers

Shallow embedding of the algorithmic parts of the `aquawatch-frontend`
repository:

* `src/api/usgs.ts` — bounding-box tiling into ≤1° cells
  (`fetchSitesByBBox`), RDB response parsing and merge/dedup by site
  number, and single-site lookup (`fetchSiteByNumber`);
* `src/components/Sparkline.tsx` — chart domain computation, the
  coordinate maps `mapX`/`mapY`, and the nearest-point tooltip search;
* `src/api/anomaly.ts` — the `checkAnomaly` and `triggerTrainingBulk`
  request builders.

JavaScript numbers are modelled as rationals (`ℚ`); `NaN` (the result of
`Number(...)` on a non-numeric string, or of indexing a missing column)
is modelled as `Option.none`.  Strings are Lean `String`s; `undefined`
string fields are `Option.none`.  HTTP effects are modelled by passing
the remote service as an explicit function argument (an oracle from
request to response).
-/

namespace AquaWatch

/-! ## Bounding-box tiling (`fetchSitesByBBox`, src/api/usgs.ts lines 62-94) -/

/-- One sub-query tile: the `bBox` rectangle
`(tileWest, tileSouth, tileEast, tileNorth)` put on the query string. -/
structure Tile where
  west : ℚ
  south : ℚ
  east : ℚ
  north : ℚ
deriving DecidableEq, Repr

/-- The loop `for (let x = Math.floor(lo); x < Math.ceil(hi); x += 1)`
collecting integer step origins (used for both `lonSteps` and
`latSteps`). -/
def degreeSteps (lo hi : ℚ) : List ℤ :=
  (List.range (⌈hi⌉ - ⌊lo⌋).toNat).map (fun i : ℕ => ⌊lo⌋ + (i : ℤ))

/-- The body of the double loop: the clipped tile at integer origin
`(x, y)`, or `none` when the code hits
`if (tileEast <= tileWest || tileNorth <= tileSouth) continue`. -/
def tileAt (west east south north : ℚ) (x y : ℤ) : Option Tile :=
  let tileWest := max west (x : ℚ)
  let tileEast := min east ((x : ℚ) + 1)
  let tileSouth := max south (y : ℚ)
  let tileNorth := min north ((y : ℚ) + 1)
  if tileEast ≤ tileWest ∨ tileNorth ≤ tileSouth then none
  else some ⟨tileWest, tileSouth, tileEast, tileNorth⟩

/-- The list of sub-query tiles generated by `fetchSitesByBBox` for the
given corner arguments, in query order (outer loop over longitudes,
inner loop over latitudes).  The corners are normalised with
`Math.min`/`Math.max` first, exactly as in the source. -/
def bboxTiles (minLongitude minLatitude maxLongitude maxLatitude : ℚ) : List Tile :=
  let west := min minLongitude maxLongitude
  let east := max minLongitude maxLongitude
  let south := min minLatitude maxLatitude
  let north := max minLatitude maxLatitude
  (degreeSteps west east).flatMap (fun x =>
    (degreeSteps south north).filterMap (fun y => tileAt west east south north x y))

/-! ## JavaScript primitives used by the RDB parser

`Number(...)` is modelled on decimal literals (optional sign, integer
and fractional digits, optional exponent); the result `none` models
`NaN`.  Indexing past the end of an array (or at index `-1`, the
`indexOf` miss value) yields `undefined`, modelled as `none`. -/

/-- Whitespace stripped by `Number(...)` before conversion. -/
def isJsWhitespace (c : Char) : Bool :=
  c == ' ' || c == '\t' || c == '\n' || c == '\r'

def jsTrim (s : String) : List Char :=
  ((s.toList.dropWhile isJsWhitespace).reverse.dropWhile isJsWhitespace).reverse

def digitsVal (cs : List Char) : ℕ :=
  cs.foldl (fun a c => a * 10 + (c.toNat - 48)) 0

/-- `"123"`, `"123.45"`, `".5"`, `"7."` — the mantissa of a decimal
literal. -/
def parseMantissa (cs : List Char) : Option ℚ :=
  match cs.splitOn '.' with
  | [ip] =>
      if ip ≠ [] ∧ ip.all Char.isDigit then some (digitsVal ip : ℚ) else none
  | [ip, fp] =>
      if (ip.all Char.isDigit ∧ fp.all Char.isDigit) ∧ (ip ≠ [] ∨ fp ≠ []) then
        some ((digitsVal ip : ℚ) + (digitsVal fp : ℚ) / (10 : ℚ) ^ fp.length)
      else none
  | _ => none

def parseExponent (cs : List Char) : Option ℤ :=
  match cs with
  | '+' :: rest =>
      if rest ≠ [] ∧ rest.all Char.isDigit then some (digitsVal rest : ℤ) else none
  | '-' :: rest =>
      if rest ≠ [] ∧ rest.all Char.isDigit then some (-(digitsVal rest : ℤ)) else none
  | _ => if cs ≠ [] ∧ cs.all Char.isDigit then some (digitsVal cs : ℤ) else none

def splitAtExpMarker (cs : List Char) : List Char × Option (List Char) :=
  match cs.findIdx? (fun c => c == 'e' || c == 'E') with
  | none => (cs, none)
  | some i => (cs.take i, some (cs.drop (i + 1)))

def parseUnsignedNumber (cs : List Char) : Option ℚ :=
  match splitAtExpMarker cs with
  | (m, none) => parseMantissa m
  | (m, some ecs) =>
      match parseMantissa m, parseExponent ecs with
      | some mv, some ev => some (mv * (10 : ℚ) ^ ev)
      | _, _ => none

/-- The JavaScript `Number : string → number` conversion on decimal
literals; `none` models `NaN`.  The empty (or all-whitespace) string
converts to `0`, exactly as in JavaScript. -/
def jsNumber (s : String) : Option ℚ :=
  match jsTrim s with
  | [] => some 0
  | '+' :: rest => parseUnsignedNumber rest
  | '-' :: rest => (parseUnsignedNumber rest).map (fun q => -q)
  | cs => parseUnsignedNumber cs

/-- `Number(x)` where `x : string | undefined`; `Number(undefined)` is
`NaN`. -/
def jsNumberOpt : Option String → Option ℚ
  | none => none
  | some s => jsNumber s

/-- `cols[i]` for a JavaScript array of strings and a possibly negative
index (the `indexOf` miss value `-1`); out-of-range access is
`undefined`. -/
def getCol (cols : List String) (i : ℤ) : Option String :=
  if 0 ≤ i then cols[i.toNat]? else none

/-- `header.indexOf(name)`: first index or `-1`. -/
def jsIndexOf (l : List String) (s : String) : ℤ :=
  match l.findIdx? (fun t => t == s) with
  | some i => (i : ℤ)
  | none => -1

def stripTrailingCR (s : String) : String :=
  if s.endsWith "\r" then s.dropRight 1 else s

/-- Helper for `splitLines`: every chunk except the last was followed by
a `'\n'` in the original text, so a trailing `'\r'` there belonged to
the `\r?\n` separator and is stripped. -/
def fixCRs : List String → List String
  | [] => []
  | [s] => [s]
  | s :: rest => stripTrailingCR s :: fixCRs rest

/-- `text.split(/\r?\n/)`. -/
def splitLines (text : String) : List String :=
  fixCRs (text.splitOn "\n")

/-! ## RDB response parsing and merge (src/api/usgs.ts lines 96-146) -/

structure LatLng where
  latitude : Option ℚ
  longitude : Option ℚ
deriving DecidableEq, Repr

structure UsgsSite where
  siteNumber : String
  name : Option String
  agencyCode : Option String
  location : LatLng
  siteType : Option String
  state : Option String
  county : Option String
  hucCd : Option String
  altitudeFt : Option ℚ
  altitudeDatum : Option String
deriving DecidableEq, Repr

/-- The `idx` record of column positions computed from the header
line. -/
structure RdbIdx where
  agency_cd : ℤ
  site_no : ℤ
  station_nm : ℤ
  site_tp_cd : ℤ
  dec_lat_va : ℤ
  dec_long_va : ℤ
  state_cd : ℤ
  county_cd : ℤ
  huc_cd : ℤ
  alt_va : ℤ
  alt_datum_cd : ℤ
deriving DecidableEq, Repr

def mkRdbIdx (header : List String) : RdbIdx where
  agency_cd := jsIndexOf header "agency_cd"
  site_no := jsIndexOf header "site_no"
  station_nm := jsIndexOf header "station_nm"
  site_tp_cd := jsIndexOf header "site_tp_cd"
  dec_lat_va := jsIndexOf header "dec_lat_va"
  dec_long_va := jsIndexOf header "dec_long_va"
  state_cd := jsIndexOf header "state_cd"
  county_cd := jsIndexOf header "county_cd"
  huc_cd := jsIndexOf header "huc_cd"
  alt_va := jsIndexOf header "alt_va"
  alt_datum_cd := jsIndexOf header "alt_datum_cd"

/-- The `UsgsSite` record literal put into `uniqueByNumber` once the
row guard has passed (`sn`, `la`, `lo` are the guarded site number and
coordinates). -/
def mkSiteRecord (idx : RdbIdx) (cols : List String) (sn : String) (la lo : ℚ) : UsgsSite where
  siteNumber := sn
  name := getCol cols idx.station_nm
  agencyCode := getCol cols idx.agency_cd
  location := ⟨some la, some lo⟩
  siteType := if 0 ≤ idx.site_tp_cd then getCol cols idx.site_tp_cd else none
  state := if 0 ≤ idx.state_cd then getCol cols idx.state_cd else none
  county := if 0 ≤ idx.county_cd then getCol cols idx.county_cd else none
  hucCd := if 0 ≤ idx.huc_cd then getCol cols idx.huc_cd else none
  altitudeFt := if 0 ≤ idx.alt_va then jsNumberOpt (getCol cols idx.alt_va) else none
  altitudeDatum := if 0 ≤ idx.alt_datum_cd then getCol cols idx.alt_datum_cd else none

/-- One iteration of the row loop: `none` when the row is skipped
(empty row, comment row, or the guard
`if (!siteNumber || Number.isNaN(lat) || Number.isNaN(lon)) continue`),
otherwise the `UsgsSite` record put into the map. -/
def parseRow (idx : RdbIdx) (row : String) : Option UsgsSite :=
  if row = "" || row.startsWith "#" then none
  else
    let cols := row.splitOn "\t"
    match getCol cols idx.site_no, jsNumberOpt (getCol cols idx.dec_lat_va),
        jsNumberOpt (getCol cols idx.dec_long_va) with
    | some sn, some la, some lo =>
        if sn = "" then none else some (mkSiteRecord idx cols sn la lo)
    | _, _, _ => none

/-- `lines.findIndex((l) => l.startsWith('agency_cd'))`, with `none`
for the `-1` miss. -/
def findHeaderIndex (lines : List String) : Option ℕ :=
  lines.findIdx? (fun l => l.startsWith "agency_cd")

/-- The sites parsed from one tile response (split into lines): locate
the header, build the column index, and parse every row from
`headerIndex + 2` on, in order. -/
def parseRdbLines (lines : List String) : List UsgsSite :=
  match findHeaderIndex lines with
  | none => []
  | some hi =>
      let header := (lines.getD hi "").splitOn "\t"
      (lines.drop (hi + 2)).filterMap (parseRow (mkRdbIdx header))

def parseRdbText (text : String) : List UsgsSite :=
  parseRdbLines (splitLines text)

/-- `Map.set` of a JavaScript `Map` as an insertion-ordered association
list: an existing key keeps its position and gets the new value, a new
key is appended. -/
def mapSet (m : List (String × UsgsSite)) (k : String) (v : UsgsSite) :
    List (String × UsgsSite) :=
  if m.any (fun p => p.1 = k) then
    m.map (fun p => if p.1 = k then (k, v) else p)
  else m ++ [(k, v)]

def insertSites (m : List (String × UsgsSite)) (sites : List UsgsSite) :
    List (String × UsgsSite) :=
  sites.foldl (fun acc s => mapSet acc s.siteNumber s) m

/-- The body of the merge loop over tile responses:
`if (!text) continue`, then parse and `uniqueByNumber.set(...)` each
row. -/
def mergeStep (m : List (String × UsgsSite)) (text : String) :
    List (String × UsgsSite) :=
  if text = "" then m else insertSites m (parseRdbText text)

/-- The merge of all tile responses:
`Array.from(uniqueByNumber.values())` in insertion order. -/
def mergeRdbTexts (texts : List String) : List UsgsSite :=
  (texts.foldl mergeStep []).map Prod.snd

/-- `fetchSitesByBBox`: tile the bounding box, fetch every tile (the
external service is the oracle `fetch`; a rejected request is an
`.error` and is turned into the empty text by `.catch(() => '')`), then
merge and deduplicate the responses. -/
def fetchSitesByBBox (fetch : Tile → Except Unit String) (a b c d : ℚ) : List UsgsSite :=
  let texts := (bboxTiles a b c d).map (fun t =>
    match fetch t with
    | .ok s => s
    | .error _ => "")
  mergeRdbTexts texts

/-- `fetchSiteByNumber` applied to the service's response text: return
the first parseable row, or `null`. -/
def fetchSiteByNumber (text : String) : Option UsgsSite :=
  let lines := splitLines text
  match findHeaderIndex lines with
  | none => none
  | some hi =>
      (lines.drop (hi + 2)).findSome? (parseRow (mkRdbIdx ((lines.getD hi "").splitOn "\t")))

/-! ## Sparkline chart (src/components/Sparkline.tsx) -/

/-- A point of the `points` / `predictedPoints` props;
`value : number | null`. -/
structure RawPoint where
  timestampMs : ℚ
  value : Option ℚ
deriving DecidableEq, Repr

/-- A point after `filter((p) => typeof p.value === 'number')`. -/
structure SeriesPoint where
  timestampMs : ℚ
  value : ℚ
deriving DecidableEq, Repr

def filterNumeric (l : List RawPoint) : List SeriesPoint :=
  l.filterMap (fun p =>
    match p.value with
    | some v => some ⟨p.timestampMs, v⟩
    | none => none)

/-- `const margin = { top: 8, right: 32, bottom: 54, left: 56 }`. -/
def marginTop : ℚ := 8
def marginRight : ℚ := 32
def marginBottom : ℚ := 54
def marginLeft : ℚ := 56

/-- `iw = Math.max(10, width - margin.left - margin.right)`. -/
def innerW (width : ℚ) : ℚ := max 10 (width - marginLeft - marginRight)

/-- `ih = Math.max(10, height - margin.top - margin.bottom)`. -/
def innerH (height : ℚ) : ℚ := max 10 (height - marginTop - marginBottom)

/-- `xs`: the timestamps of both series, sorted ascending by the
comparator `(a, b) => a - b`. -/
def sortedXs (all : List SeriesPoint) : List ℚ :=
  (all.map (fun p => p.timestampMs)).mergeSort (fun a b => a ≤ b)

/-- `minX = xs[0]` (the component's early return guarantees a non-empty
`all`; the default covers the unreachable empty case). -/
def minX (all : List SeriesPoint) : ℚ := (sortedXs all).headD 0

/-- `maxX = xs[xs.length - 1]`. -/
def maxX (all : List SeriesPoint) : ℚ := (sortedXs all).getLastD 0

/-- `Math.min(...ys)` on a non-empty spread (the empty case is
unreachable behind the early return). -/
def jsMinList : List ℚ → ℚ
  | [] => 0
  | a :: rest => rest.foldl min a

def jsMaxList : List ℚ → ℚ
  | [] => 0
  | a :: rest => rest.foldl max a

def minY (all : List SeriesPoint) : ℚ := jsMinList (all.map (fun p => p.value))
def maxY (all : List SeriesPoint) : ℚ := jsMaxList (all.map (fun p => p.value))

/-- JavaScript `q || 1`: a zero span is replaced by `1`. -/
def jsOrOne (q : ℚ) : ℚ := if q = 0 then 1 else q

/-- `const dx = maxX - minX || 1`. -/
def dx (all : List SeriesPoint) : ℚ := jsOrOne (maxX all - minX all)

/-- `const dy = maxY - minY || 1`. -/
def dy (all : List SeriesPoint) : ℚ := jsOrOne (maxY all - minY all)

/-- `mapX = (t) => margin.left + ((t - minX) / dx) * iw`. -/
def mapX (all : List SeriesPoint) (width t : ℚ) : ℚ :=
  marginLeft + ((t - minX all) / dx all) * innerW width

/-- `mapY = (v) => margin.top + ih - ((v - minY) / dy) * ih`. -/
def mapY (all : List SeriesPoint) (height v : ℚ) : ℚ :=
  marginTop + innerH height - ((v - minY all) / dy all) * innerH height

/-- `tAtCursor = minX + ((cursorX - margin.left) / Math.max(1, iw)) * dx`. -/
def tAtCursor (all : List SeriesPoint) (width cursorX : ℚ) : ℚ :=
  minX all + ((cursorX - marginLeft) / max 1 (innerW width)) * dx all

/-- The scan inside the `nearest` helper: carry the current best point
and its distance (`bestIdx` / `bestDist`); the strict `<` keeps the
earliest minimum. -/
def nearestAux (tc : ℚ) (best : SeriesPoint) (bestDist : ℚ) :
    List SeriesPoint → SeriesPoint
  | [] => best
  | p :: rest =>
      if |p.timestampMs - tc| < bestDist then nearestAux tc p |p.timestampMs - tc| rest
      else nearestAux tc best bestDist rest

/-- `nearest(arr)`: `null` for an empty series, otherwise the series
point `{ t, v }` at index `bestIdx`. -/
def nearest (tc : ℚ) : List SeriesPoint → Option SeriesPoint
  | [] => none
  | p :: rest => some (nearestAux tc p |p.timestampMs - tc| rest)

/-! ## Backend request wrappers (src/api/anomaly.ts) -/

/-- The JSON body `{ sites, threshold_percent }` posted by
`checkAnomaly`. -/
structure AnomalyCheckBody where
  sites : List String
  threshold_percent : ℚ
deriving DecidableEq, Repr

/-- An `http.post(path, body)` request to the backend. -/
structure PostRequest where
  path : String
  body : AnomalyCheckBody
deriving DecidableEq, Repr

/-- The single request built by `checkAnomaly`. -/
def checkAnomalyRequest (sites : List String) (thresholdPercent : ℚ) : PostRequest :=
  ⟨"/anomaly/check", ⟨sites, thresholdPercent⟩⟩

/-- `checkAnomaly`: POST the body to `/anomaly/check` and return the
backend's response data unchanged on success; on failure rethrow with
the extracted message.  `Data` is the backend's response type, `post`
the backend itself, `extractMessage` the
`apiMessage || err.message || 'Anomaly check failed'` extraction. -/
def checkAnomaly {Data Err : Type} (post : PostRequest → Except Err Data)
    (extractMessage : Err → String) (sites : List String) (thresholdPercent : ℚ) :
    Except String Data :=
  match post (checkAnomalyRequest sites thresholdPercent) with
  | .ok data => .ok data
  | .error err => .error (extractMessage err)

/-- An `http.get` request to the backend with its query parameters in
order. -/
structure GetRequest where
  path : String
  params : List (String × String)
deriving DecidableEq, Repr

/-- `triggerTrainingBulk`: the list of HTTP requests issued and the
outcome.  `stations = none` models a missing (`undefined`/`null`)
argument; `if (!stations || stations.length === 0) return` issues no
request. -/
def triggerTrainingBulk {Err : Type} (get : GetRequest → Except Err Unit)
    (extractMessage : Err → String) (stations : Option (List String)) :
    List GetRequest × Except String Unit :=
  match stations with
  | none => ([], .ok ())
  | some l =>
      if l.length = 0 then ([], .ok ())
      else
        let req : GetRequest :=
          ⟨"/ingest", l.map (fun s => ("station", s)) ++ [("train", "true")]⟩
        ([req],
          match get req with
          | .ok _ => .ok ()
          | .error err => .error (extractMessage err))

/-- Invariant of the `uniqueByNumber` association list: every entry is
keyed by its site's number, and keys are pairwise distinct. -/
def MapInv (m : List (String × UsgsSite)) : Prop :=
  (∀ p ∈ m, p.1 = p.2.siteNumber) ∧ (m.map Prod.fst).Nodup

/-- A site record with an id and coordinates: non-empty site number and
non-`NaN` latitude/longitude. -/
def GoodSite (s : UsgsSite) : Prop :=
  s.siteNumber ≠ "" ∧ s.location.latitude.isSome ∧ s.location.longitude.isSome

theorem mem_degreeSteps {lo hi : ℚ} {x : ℤ} :
    x ∈ degreeSteps lo hi ↔ ⌊lo⌋ ≤ x ∧ x < ⌈hi⌉ := by
  simp only [degreeSteps, List.mem_map, List.mem_range]
  constructor
  · intro h
    obtain ⟨i, hlt, hx⟩ := h
    omega
  · intro h
    refine ⟨(x - ⌊lo⌋).toNat, by omega, by omega⟩

theorem mem_bboxTiles {a b c d : ℚ} {t : Tile} :
    t ∈ bboxTiles a b c d ↔
      ∃ x ∈ degreeSteps (min a c) (max a c), ∃ y ∈ degreeSteps (min b d) (max b d),
        tileAt (min a c) (max a c) (min b d) (max b d) x y = some t := by
  unfold bboxTiles
  simp [List.mem_flatMap, List.mem_filterMap]

theorem tileAt_eq_some {west east south north : ℚ} {x y : ℤ} {t : Tile}
    (h : tileAt west east south north x y = some t) :
    t.west = max west (x : ℚ) ∧ t.east = min east ((x : ℚ) + 1) ∧
    t.south = max south (y : ℚ) ∧ t.north = min north ((y : ℚ) + 1) ∧
    t.west < t.east ∧ t.south < t.north := by
  simp only [tileAt] at h
  split at h
  · exact Option.noConfusion h
  · next hc =>
    push_neg at hc
    injection h with h
    subst h
    exact ⟨rfl, rfl, rfl, rfl, hc.1, hc.2⟩

theorem tileAt_some_of {west east south north : ℚ} {x y : ℤ}
    (h1 : max west (x : ℚ) < min east ((x : ℚ) + 1))
    (h2 : max south (y : ℚ) < min north ((y : ℚ) + 1)) :
    tileAt west east south north x y =
      some ⟨max west (x : ℚ), max south (y : ℚ), min east ((x : ℚ) + 1),
            min north ((y : ℚ) + 1)⟩ := by
  unfold tileAt
  rw [if_neg]
  push_neg
  exact ⟨h1, h2⟩

/-- 1-D kernel of the coverage argument: a coordinate `p` inside the
normalised interval `[lo, hi]` is contained in the clipped unit cell of
some generated step, and that cell is non-degenerate. -/
theorem exists_degreeStep_cover {lo hi p : ℚ} (hlt : lo < hi) (h1 : lo ≤ p) (h2 : p ≤ hi) :
    ∃ x ∈ degreeSteps lo hi,
      max lo (x : ℚ) ≤ p ∧ p ≤ min hi ((x : ℚ) + 1) ∧
      max lo (x : ℚ) < min hi ((x : ℚ) + 1) := by
  refine ⟨min ⌊p⌋ (⌈hi⌉ - 1), mem_degreeSteps.mpr ⟨?_, ?_⟩, ?_, ?_, ?_⟩
  · have hfl : ⌊lo⌋ ≤ ⌊p⌋ := Int.floor_le_floor h1
    have hfc : ⌊lo⌋ < ⌈hi⌉ := by
      have := Int.floor_le lo
      have := Int.le_ceil hi
      have : (⌊lo⌋ : ℚ) < (⌈hi⌉ : ℚ) := by linarith [Int.floor_le lo, Int.le_ceil hi]
      exact_mod_cast this
    omega
  · omega
  · have hx : ((min ⌊p⌋ (⌈hi⌉ - 1) : ℤ) : ℚ) ≤ p := by
      calc ((min ⌊p⌋ (⌈hi⌉ - 1) : ℤ) : ℚ) ≤ ((⌊p⌋ : ℤ) : ℚ) := by
              exact_mod_cast min_le_left _ _
        _ ≤ p := Int.floor_le p
    exact max_le h1 hx
  · rcases le_or_lt ⌊p⌋ (⌈hi⌉ - 1) with hcase | hcase
    · rw [min_eq_left hcase]
      have hp1 : p < (⌊p⌋ : ℚ) + 1 := Int.lt_floor_add_one p
      exact le_min h2 (le_of_lt hp1)
    · rw [min_eq_right (le_of_lt hcase)]
      have hceil : ⌈hi⌉ ≤ ⌊p⌋ := by omega
      have : p ≤ ((⌈hi⌉ - 1 : ℤ) : ℚ) + 1 := by
        push_cast
        linarith [Int.le_ceil hi]
      exact le_min h2 this
  · have hxlt : ((min ⌊p⌋ (⌈hi⌉ - 1) : ℤ) : ℚ) < hi := by
      have h1' : ((min ⌊p⌋ (⌈hi⌉ - 1) : ℤ) : ℚ) ≤ ((⌈hi⌉ - 1 : ℤ) : ℚ) := by
        exact_mod_cast min_le_right _ _
      have h2' : ((⌈hi⌉ - 1 : ℤ) : ℚ) < hi := by
        push_cast
        linarith [Int.ceil_lt_add_one hi]
      linarith
    have hlo1 : lo < ((min ⌊p⌋ (⌈hi⌉ - 1) : ℤ) : ℚ) + 1 := by
      rcases le_or_lt ⌊p⌋ (⌈hi⌉ - 1) with hcase | hcase
      · rw [min_eq_left hcase]
        have := Int.lt_floor_add_one p
        linarith
      · rw [min_eq_right (le_of_lt hcase)]
        push_cast
        linarith [Int.le_ceil hi]
    have hxx : ((min ⌊p⌋ (⌈hi⌉ - 1) : ℤ) : ℚ) < ((min ⌊p⌋ (⌈hi⌉ - 1) : ℤ) : ℚ) + 1 := by
      linarith
    exact max_lt (lt_min hlt hlo1) (lt_min hxlt hxx)

/-- C1: every sub-query tile generated by `fetchSitesByBBox` spans at
most one degree of longitude and at most one degree of latitude. -/
theorem fetchSitesByBBox_tile_span_le_one (a b c d : ℚ) (t : Tile)
    (ht : t ∈ bboxTiles a b c d) :
    t.east - t.west ≤ 1 ∧ t.north - t.south ≤ 1 := by
  obtain ⟨x, hx, y, hy, hsome⟩ := mem_bboxTiles.mp ht
  obtain ⟨hw, he, hs, hn, _, _⟩ := tileAt_eq_some hsome
  constructor
  · rw [hw, he]
    have h1 : min (max a c) ((x : ℚ) + 1) ≤ (x : ℚ) + 1 := min_le_right _ _
    have h2 : (x : ℚ) ≤ max (min a c) (x : ℚ) := le_max_right _ _
    linarith
  · rw [hs, hn]
    have h1 : min (max b d) ((y : ℚ) + 1) ≤ (y : ℚ) + 1 := min_le_right _ _
    have h2 : (y : ℚ) ≤ max (min b d) (y : ℚ) := le_max_right _ _
    linarith

theorem fetchSitesByBBox_tile_span_le_one_witness :
    (⟨0, 0, 1, 1⟩ : Tile) ∈ bboxTiles 0 0 1 1 ∧
      ((⟨0, 0, 1, 1⟩ : Tile).east - (⟨0, 0, 1, 1⟩ : Tile).west ≤ 1 ∧
       (⟨0, 0, 1, 1⟩ : Tile).north - (⟨0, 0, 1, 1⟩ : Tile).south ≤ 1) :=
  ⟨by simp [bboxTiles, degreeSteps, tileAt],
   fetchSitesByBBox_tile_span_le_one 0 0 1 1 ⟨0, 0, 1, 1⟩
     (by simp [bboxTiles, degreeSteps, tileAt])⟩

/-- C2: for a non-degenerate normalised bounding box, the generated
tiles cover the box exactly: every point of the box lies in some tile,
and every tile lies inside the box. -/
theorem fetchSitesByBBox_tiles_cover_exactly (a b c d : ℚ)
    (hlon : min a c < max a c) (hlat : min b d < max b d) :
    (∀ p q : ℚ, min a c ≤ p → p ≤ max a c → min b d ≤ q → q ≤ max b d →
        ∃ t ∈ bboxTiles a b c d, t.west ≤ p ∧ p ≤ t.east ∧ t.south ≤ q ∧ q ≤ t.north) ∧
    (∀ t ∈ bboxTiles a b c d,
        min a c ≤ t.west ∧ t.east ≤ max a c ∧ min b d ≤ t.south ∧ t.north ≤ max b d) := by
  constructor
  · intro p q hp1 hp2 hq1 hq2
    obtain ⟨x, hxmem, hxl, hxr, hxne⟩ := exists_degreeStep_cover hlon hp1 hp2
    obtain ⟨y, hymem, hyl, hyr, hyne⟩ := exists_degreeStep_cover hlat hq1 hq2
    refine ⟨⟨max (min a c) (x : ℚ), max (min b d) (y : ℚ),
             min (max a c) ((x : ℚ) + 1), min (max b d) ((y : ℚ) + 1)⟩,
            mem_bboxTiles.mpr ⟨x, hxmem, y, hymem, tileAt_some_of hxne hyne⟩,
            hxl, hxr, hyl, hyr⟩
  · intro t ht
    obtain ⟨x, _, y, _, hsome⟩ := mem_bboxTiles.mp ht
    obtain ⟨hw, he, hs, hn, _, _⟩ := tileAt_eq_some hsome
    rw [hw, he, hs, hn]
    exact ⟨le_max_left _ _, min_le_left _ _, le_max_left _ _, min_le_left _ _⟩

theorem fetchSitesByBBox_tiles_cover_exactly_witness :
    ((min (0 : ℚ) 1 < max (0 : ℚ) 1) ∧ (min (0 : ℚ) 1 < max (0 : ℚ) 1)) ∧
      ((∀ p q : ℚ, min (0 : ℚ) 1 ≤ p → p ≤ max (0 : ℚ) 1 →
          min (0 : ℚ) 1 ≤ q → q ≤ max (0 : ℚ) 1 →
          ∃ t ∈ bboxTiles 0 0 1 1, t.west ≤ p ∧ p ≤ t.east ∧ t.south ≤ q ∧ q ≤ t.north) ∧
       (∀ t ∈ bboxTiles 0 0 1 1,
          min (0 : ℚ) 1 ≤ t.west ∧ t.east ≤ max (0 : ℚ) 1 ∧
          min (0 : ℚ) 1 ≤ t.south ∧ t.north ≤ max (0 : ℚ) 1)) :=
  ⟨⟨by norm_num, by norm_num⟩,
   fetchSitesByBBox_tiles_cover_exactly 0 0 1 1 (by norm_num) (by norm_num)⟩

/-! ## Merge/dedup lemmas -/

theorem mapSet_map_fst (m : List (String × UsgsSite)) (k : String) (v : UsgsSite) :
    (mapSet m k v).map Prod.fst = m.map Prod.fst ∨
      ((mapSet m k v).map Prod.fst = m.map Prod.fst ++ [k] ∧ k ∉ m.map Prod.fst) := by
  unfold mapSet
  split
  · left
    rw [List.map_map]
    apply List.map_congr_left
    intro p _
    by_cases h : p.1 = k
    · simp [h]
    · simp [h]
  · next hany =>
    right
    refine ⟨by simp, ?_⟩
    intro hk
    apply hany
    rw [List.any_eq_true]
    obtain ⟨p, hp, hpk⟩ := List.mem_map.mp hk
    exact ⟨p, hp, by simp [hpk]⟩

theorem mapSet_nodup {m : List (String × UsgsSite)} {k : String} {v : UsgsSite}
    (h : (m.map Prod.fst).Nodup) : ((mapSet m k v).map Prod.fst).Nodup := by
  rcases mapSet_map_fst m k v with heq | ⟨heq, hnk⟩
  · rwa [heq]
  · rw [heq]
    refine h.append (List.nodup_singleton k) ?_
    intro x hx hx1
    rw [List.mem_singleton] at hx1
    exact hnk (hx1 ▸ hx)

theorem mapSet_forall {P : String × UsgsSite → Prop} {m : List (String × UsgsSite)}
    {k : String} {v : UsgsSite} (h : ∀ p ∈ m, P p) (hv : P (k, v)) :
    ∀ p ∈ mapSet m k v, P p := by
  intro p hp
  unfold mapSet at hp
  split at hp
  · obtain ⟨q, hq, hqp⟩ := List.mem_map.mp hp
    by_cases hqk : q.1 = k
    · rw [if_pos hqk] at hqp
      subst hqp
      exact hv
    · rw [if_neg hqk] at hqp
      subst hqp
      exact h q hq
  · rcases List.mem_append.mp hp with h1 | h1
    · exact h p h1
    · rw [List.mem_singleton] at h1
      subst h1
      exact hv

theorem insertSites_inv {sites : List UsgsSite} {m : List (String × UsgsSite)}
    (h : MapInv m) : MapInv (insertSites m sites) := by
  induction sites generalizing m with
  | nil => exact h
  | cons s rest ih =>
    show MapInv (insertSites (mapSet m s.siteNumber s) rest)
    exact ih ⟨mapSet_forall h.1 rfl, mapSet_nodup h.2⟩

theorem mergeFold_inv (texts : List String) (m : List (String × UsgsSite))
    (h : MapInv m) : MapInv (texts.foldl mergeStep m) := by
  induction texts generalizing m with
  | nil => exact h
  | cons t rest ih =>
    show MapInv (rest.foldl mergeStep (mergeStep m t))
    apply ih
    unfold mergeStep
    split
    · exact h
    · exact insertSites_inv h

theorem values_siteNumbers_nodup {m : List (String × UsgsSite)} (h : MapInv m) :
    ((m.map Prod.snd).map (fun s => s.siteNumber)).Nodup := by
  rw [List.map_map]
  have heq : m.map ((fun s => s.siteNumber) ∘ Prod.snd) = m.map Prod.fst :=
    List.map_congr_left (fun p hp => (h.1 p hp).symm)
  rw [heq]
  exact h.2

/-- C3: the site list returned by `fetchSitesByBBox` never contains two
entries with the same site number, whatever the tile responses are. -/
theorem fetchSitesByBBox_siteNumbers_nodup (fetch : Tile → Except Unit String)
    (a b c d : ℚ) :
    ((fetchSitesByBBox fetch a b c d).map (fun s => s.siteNumber)).Nodup := by
  unfold fetchSitesByBBox mergeRdbTexts
  exact values_siteNumbers_nodup (mergeFold_inv _ [] ⟨by simp, List.nodup_nil⟩)

theorem parseRow_good {idx : RdbIdx} {row : String} {s : UsgsSite}
    (h : parseRow idx row = some s) : GoodSite s := by
  simp only [parseRow] at h
  split at h
  · exact Option.noConfusion h
  · split at h
    · next sn la lo _ _ _ =>
      split at h
      · exact Option.noConfusion h
      · next hsn =>
        injection h with h
        subst h
        exact ⟨hsn, rfl, rfl⟩
    · exact Option.noConfusion h

theorem parseRdbLines_good {lines : List String} {s : UsgsSite}
    (h : s ∈ parseRdbLines lines) : GoodSite s := by
  unfold parseRdbLines at h
  split at h
  · simp at h
  · obtain ⟨row, _, hrow⟩ := List.mem_filterMap.mp h
    exact parseRow_good hrow

theorem insertSites_good {sites : List UsgsSite} {m : List (String × UsgsSite)}
    (h : ∀ p ∈ m, GoodSite p.2) (hs : ∀ s ∈ sites, GoodSite s) :
    ∀ p ∈ insertSites m sites, GoodSite p.2 := by
  induction sites generalizing m with
  | nil => exact h
  | cons s rest ih =>
    show ∀ p ∈ insertSites (mapSet m s.siteNumber s) rest, GoodSite p.2
    exact ih (mapSet_forall h (hs s (List.mem_cons_self s rest)))
      (fun q hq => hs q (List.mem_cons_of_mem s hq))

theorem mergeFold_good (texts : List String) (m : List (String × UsgsSite))
    (h : ∀ p ∈ m, GoodSite p.2) : ∀ p ∈ texts.foldl mergeStep m, GoodSite p.2 := by
  induction texts generalizing m with
  | nil => exact h
  | cons t rest ih =>
    show ∀ p ∈ rest.foldl mergeStep (mergeStep m t), GoodSite p.2
    apply ih
    unfold mergeStep
    split
    · exact h
    · exact insertSites_good h (fun s hs => parseRdbLines_good (by
        unfold parseRdbText at hs
        exact hs))

/-- C6: every site record produced from a data-service response — by
`fetchSitesByBBox` for any tile responses, or by `fetchSiteByNumber`
for any response text — has a non-empty site number and non-`NaN`
latitude and longitude. -/
theorem produced_sites_have_id_and_coords (fetch : Tile → Except Unit String)
    (a b c d : ℚ) (text : String) :
    (∀ s ∈ fetchSitesByBBox fetch a b c d, GoodSite s) ∧
    (∀ s, fetchSiteByNumber text = some s → GoodSite s) := by
  constructor
  · intro s hs
    unfold fetchSitesByBBox mergeRdbTexts at hs
    obtain ⟨p, hp, hps⟩ := List.mem_map.mp hs
    exact hps ▸ mergeFold_good _ [] (by simp) p hp
  · intro s hs
    simp only [fetchSiteByNumber] at hs
    split at hs
    · exact Option.noConfusion hs
    · obtain ⟨row, _, hrow⟩ := List.exists_of_findSome?_eq_some hs
      exact parseRow_good hrow

theorem mergeStep_empty (m : List (String × UsgsSite)) : mergeStep m "" = m := by
  unfold mergeStep
  rw [if_pos rfl]

theorem mergeFold_recover (fetch : Tile → Except Unit String) (l : List Tile)
    (m : List (String × UsgsSite)) :
    (l.map (fun t =>
        match fetch t with
        | .ok s => s
        | .error _ => "")).foldl mergeStep m =
      (l.filterMap (fun t =>
        match fetch t with
        | .ok s => some s
        | .error _ => none)).foldl mergeStep m := by
  induction l generalizing m with
  | nil => rfl
  | cons t rest ih =>
    cases hf : fetch t with
    | ok s =>
      simp only [List.map_cons, List.filterMap_cons, hf, List.foldl_cons]
      exact ih _
    | error e =>
      simp only [List.map_cons, List.filterMap_cons, hf, List.foldl_cons, mergeStep_empty]
      exact ih m

/-- C9: a failed sub-query is turned into the empty response text by
the per-tile `.catch(() => '')` handler, the whole fetch never rejects
(it is a total function of the oracle), and the merged result is
exactly the merge of the texts of the tiles that succeeded. -/
theorem fetchSitesByBBox_failed_tiles_ignored (fetch : Tile → Except Unit String)
    (a b c d : ℚ) :
    fetchSitesByBBox fetch a b c d =
      mergeRdbTexts ((bboxTiles a b c d).filterMap (fun t =>
        match fetch t with
        | .ok s => some s
        | .error _ => none)) := by
  simp only [fetchSitesByBBox, mergeRdbTexts]
  rw [mergeFold_recover]

/-- C8: `fetchSitesByBBox` is insensitive to the order of its corner
arguments: swapping `minLongitude` with `maxLongitude`, and/or
`minLatitude` with `maxLatitude`, produces the same sub-query tiles and
the same merged result, because the corners are normalised with
`Math.min`/`Math.max` before tiling. -/
theorem fetchSitesByBBox_corner_order_insensitive (fetch : Tile → Except Unit String)
    (a b c d : ℚ) :
    (bboxTiles c b a d = bboxTiles a b c d ∧
     bboxTiles a d c b = bboxTiles a b c d ∧
     bboxTiles c d a b = bboxTiles a b c d) ∧
    (fetchSitesByBBox fetch c b a d = fetchSitesByBBox fetch a b c d ∧
     fetchSitesByBBox fetch a d c b = fetchSitesByBBox fetch a b c d ∧
     fetchSitesByBBox fetch c d a b = fetchSitesByBBox fetch a b c d) := by
  have h1 : bboxTiles c b a d = bboxTiles a b c d := by
    unfold bboxTiles
    rw [min_comm c a, max_comm c a]
  have h2 : bboxTiles a d c b = bboxTiles a b c d := by
    unfold bboxTiles
    rw [min_comm d b, max_comm d b]
  have h3 : bboxTiles c d a b = bboxTiles a b c d := by
    unfold bboxTiles
    rw [min_comm c a, max_comm c a, min_comm d b, max_comm d b]
  refine ⟨⟨h1, h2, h3⟩, ?_, ?_, ?_⟩ <;> simp only [fetchSitesByBBox, h1, h2, h3]

/-! ## Sparkline lemmas -/

theorem sortedXs_sorted (all : List SeriesPoint) :
    (sortedXs all).Pairwise (fun a b : ℚ => a ≤ b) := by
  have h := @List.sorted_mergeSort ℚ (fun a b : ℚ => decide (a ≤ b))
    (fun a b c hab hbc => by
      simp only [decide_eq_true_eq] at *
      exact le_trans hab hbc)
    (fun a b => by
      simp only [Bool.or_eq_true, decide_eq_true_eq]
      exact le_total a b)
    (all.map (fun p => p.timestampMs))
  exact h.imp (fun hab => by simpa using hab)

theorem mem_sortedXs {all : List SeriesPoint} {t : ℚ} :
    t ∈ sortedXs all ↔ t ∈ all.map (fun p => p.timestampMs) := by
  unfold sortedXs
  exact List.mem_mergeSort

theorem headD_le_of_sorted {l : List ℚ} (hs : l.Pairwise (fun a b : ℚ => a ≤ b))
    {x : ℚ} (hx : x ∈ l) : l.headD 0 ≤ x := by
  cases l with
  | nil => cases hx
  | cons a rest =>
    rcases List.mem_cons.mp hx with rfl | hx'
    · exact le_refl _
    · exact List.rel_of_pairwise_cons hs hx'

theorem le_getLastD_of_sorted {l : List ℚ} (hs : l.Pairwise (fun a b : ℚ => a ≤ b))
    {x : ℚ} (hx : x ∈ l) : x ≤ l.getLastD 0 := by
  induction l with
  | nil => cases hx
  | cons a rest ih =>
    cases rest with
    | nil =>
      rw [List.mem_singleton] at hx
      subst hx
      exact le_refl _
    | cons b rest2 =>
      have hlast : (a :: b :: rest2).getLastD 0 = (b :: rest2).getLastD 0 := rfl
      rw [hlast]
      have hs2 : (b :: rest2).Pairwise (fun a b : ℚ => a ≤ b) := hs.tail
      rcases List.mem_cons.mp hx with rfl | hx'
      · have hmem : (b :: rest2).getLastD 0 ∈ b :: rest2 := by
          cases rest2 with
          | nil => exact List.mem_singleton_self b
          | cons c rest3 => exact List.getLastD_mem_cons _ _
        exact List.rel_of_pairwise_cons hs hmem
      · exact ih hs2 hx'

theorem minX_le_of_mem {all : List SeriesPoint} {p : SeriesPoint} (hp : p ∈ all) :
    minX all ≤ p.timestampMs := by
  apply headD_le_of_sorted (sortedXs_sorted all)
  exact mem_sortedXs.mpr (List.mem_map.mpr ⟨p, hp, rfl⟩)

theorem le_maxX_of_mem {all : List SeriesPoint} {p : SeriesPoint} (hp : p ∈ all) :
    p.timestampMs ≤ maxX all := by
  apply le_getLastD_of_sorted (sortedXs_sorted all)
  exact mem_sortedXs.mpr (List.mem_map.mpr ⟨p, hp, rfl⟩)

theorem foldl_min_le (l : List ℚ) (a : ℚ) :
    l.foldl min a ≤ a ∧ ∀ x ∈ l, l.foldl min a ≤ x := by
  induction l generalizing a with
  | nil => exact ⟨le_refl _, by simp⟩
  | cons b rest ih =>
    obtain ⟨h1, h2⟩ := ih (min a b)
    refine ⟨le_trans h1 (min_le_left a b), ?_⟩
    intro x hx
    rcases List.mem_cons.mp hx with rfl | hx'
    · exact le_trans h1 (min_le_right a x)
    · exact h2 x hx'

theorem le_foldl_max (l : List ℚ) (a : ℚ) :
    a ≤ l.foldl max a ∧ ∀ x ∈ l, x ≤ l.foldl max a := by
  induction l generalizing a with
  | nil => exact ⟨le_refl _, by simp⟩
  | cons b rest ih =>
    obtain ⟨h1, h2⟩ := ih (max a b)
    refine ⟨le_trans (le_max_left a b) h1, ?_⟩
    intro x hx
    rcases List.mem_cons.mp hx with rfl | hx'
    · exact le_trans (le_max_right a x) h1
    · exact h2 x hx'

theorem minY_le_of_mem {all : List SeriesPoint} {p : SeriesPoint} (hp : p ∈ all) :
    minY all ≤ p.value := by
  unfold minY jsMinList
  have hmem : p.value ∈ all.map (fun p => p.value) := List.mem_map.mpr ⟨p, hp, rfl⟩
  cases hl : all.map (fun p => p.value) with
  | nil => rw [hl] at hmem; cases hmem
  | cons a rest =>
    rw [hl] at hmem
    rcases List.mem_cons.mp hmem with rfl | hx'
    · exact (foldl_min_le rest p.value).1
    · exact (foldl_min_le rest a).2 _ hx'

theorem le_maxY_of_mem {all : List SeriesPoint} {p : SeriesPoint} (hp : p ∈ all) :
    p.value ≤ maxY all := by
  unfold maxY jsMaxList
  have hmem : p.value ∈ all.map (fun p => p.value) := List.mem_map.mpr ⟨p, hp, rfl⟩
  cases hl : all.map (fun p => p.value) with
  | nil => rw [hl] at hmem; cases hmem
  | cons a rest =>
    rw [hl] at hmem
    rcases List.mem_cons.mp hmem with rfl | hx'
    · exact (le_foldl_max rest p.value).1
    · exact (le_foldl_max rest a).2 _ hx'

/-- The normalised offset `(t - lo) / (hi - lo || 1)` stays in `[0, 1]`
for `t ∈ [lo, hi]`, including the degenerate `lo = hi` case. -/
theorem ratio_bounds {lo hi t : ℚ} (h1 : lo ≤ t) (h2 : t ≤ hi) :
    0 ≤ (t - lo) / jsOrOne (hi - lo) ∧ (t - lo) / jsOrOne (hi - lo) ≤ 1 := by
  unfold jsOrOne
  split
  · next h0 =>
    have ht : t = lo := le_antisymm (by linarith) h1
    rw [ht]
    norm_num
  · next h0 =>
    have hpos : 0 < hi - lo := lt_of_le_of_ne (by linarith) (Ne.symm h0)
    constructor
    · exact div_nonneg (by linarith) (le_of_lt hpos)
    · rw [div_le_one hpos]
      linarith

theorem nearestAux_spec (tc : ℚ) (l : List SeriesPoint) :
    ∀ best : SeriesPoint,
      (nearestAux tc best |best.timestampMs - tc| l = best ∨
        nearestAux tc best |best.timestampMs - tc| l ∈ l) ∧
      |(nearestAux tc best |best.timestampMs - tc| l).timestampMs - tc| ≤
        |best.timestampMs - tc| ∧
      ∀ q ∈ l, |(nearestAux tc best |best.timestampMs - tc| l).timestampMs - tc| ≤
        |q.timestampMs - tc| := by
  induction l with
  | nil => exact fun best => ⟨Or.inl rfl, le_refl _, by simp⟩
  | cons p rest ih =>
    intro best
    show (_ ∧ _ ∧ _)
    rw [nearestAux]
    by_cases h : |p.timestampMs - tc| < |best.timestampMs - tc|
    · rw [if_pos h]
      obtain ⟨hmem, hdist, hall⟩ := ih p
      refine ⟨?_, le_trans hdist (le_of_lt h), ?_⟩
      · rcases hmem with h1 | h1
        · exact Or.inr (by rw [h1]; exact List.mem_cons_self p rest)
        · exact Or.inr (List.mem_cons_of_mem p h1)
      · intro q hq
        rcases List.mem_cons.mp hq with rfl | hq'
        · exact hdist
        · exact hall q hq'
    · rw [if_neg h]
      obtain ⟨hmem, hdist, hall⟩ := ih best
      push_neg at h
      refine ⟨?_, hdist, ?_⟩
      · rcases hmem with h1 | h1
        · exact Or.inl h1
        · exact Or.inr (List.mem_cons_of_mem p h1)
      · intro q hq
        rcases List.mem_cons.mp hq with rfl | hq'
        · exact le_trans hdist h
        · exact hall q hq'

/-- C4: for every non-empty displayed series and every cursor position,
the point highlighted by the tooltip is a point of that series whose
absolute timestamp distance to the time at the cursor is minimal over
all points of the series. -/
theorem sparkline_tooltip_nearest (all arr : List SeriesPoint) (width cursorX : ℚ)
    (h : arr ≠ []) :
    ∃ p, nearest (tAtCursor all width cursorX) arr = some p ∧ p ∈ arr ∧
      ∀ q ∈ arr, |p.timestampMs - tAtCursor all width cursorX| ≤
        |q.timestampMs - tAtCursor all width cursorX| := by
  match arr, h with
  | p0 :: rest, _ =>
    obtain ⟨hmem, hdist, hall⟩ := nearestAux_spec (tAtCursor all width cursorX) rest p0
    refine ⟨_, rfl, ?_, ?_⟩
    · rcases hmem with h1 | h1
      · rw [h1]
        exact List.mem_cons_self p0 rest
      · exact List.mem_cons_of_mem p0 h1
    · intro q hq
      rcases List.mem_cons.mp hq with rfl | hq'
      · exact hdist
      · exact hall q hq'

theorem sparkline_tooltip_nearest_witness :
    ([(⟨0, 1⟩ : SeriesPoint), ⟨10, 2⟩] ≠ []) ∧
      (∃ p, nearest (tAtCursor [⟨0, 1⟩, ⟨10, 2⟩] 800 100) [⟨0, 1⟩, ⟨10, 2⟩] = some p ∧
        p ∈ [(⟨0, 1⟩ : SeriesPoint), ⟨10, 2⟩] ∧
        ∀ q ∈ [(⟨0, 1⟩ : SeriesPoint), ⟨10, 2⟩],
          |p.timestampMs - tAtCursor [⟨0, 1⟩, ⟨10, 2⟩] 800 100| ≤
            |q.timestampMs - tAtCursor [⟨0, 1⟩, ⟨10, 2⟩] 800 100|) :=
  ⟨by simp, sparkline_tooltip_nearest [⟨0, 1⟩, ⟨10, 2⟩] [⟨0, 1⟩, ⟨10, 2⟩] 800 100 (by simp)⟩

/-- C5: both series are drawn in one shared coordinate system whose X
and Y domains are the minimum/maximum over the union of the filtered
actual and predicted points, and every such point is mapped by
`mapX`/`mapY` into the plotting area
`[margin.left, margin.left + iw] × [margin.top, margin.top + ih]`,
including the degenerate equal-timestamp / equal-value cases. -/
theorem sparkline_points_mapped_into_plot (points predictedPoints : List RawPoint)
    (width height : ℚ) (p : SeriesPoint)
    (hp : p ∈ filterNumeric points ++ filterNumeric predictedPoints) :
    (minX (filterNumeric points ++ filterNumeric predictedPoints) ≤ p.timestampMs ∧
     p.timestampMs ≤ maxX (filterNumeric points ++ filterNumeric predictedPoints) ∧
     minY (filterNumeric points ++ filterNumeric predictedPoints) ≤ p.value ∧
     p.value ≤ maxY (filterNumeric points ++ filterNumeric predictedPoints)) ∧
    marginLeft ≤ mapX (filterNumeric points ++ filterNumeric predictedPoints) width p.timestampMs ∧
    mapX (filterNumeric points ++ filterNumeric predictedPoints) width p.timestampMs ≤
      marginLeft + innerW width ∧
    marginTop ≤ mapY (filterNumeric points ++ filterNumeric predictedPoints) height p.value ∧
    mapY (filterNumeric points ++ filterNumeric predictedPoints) height p.value ≤
      marginTop + innerH height := by
  set all := filterNumeric points ++ filterNumeric predictedPoints with hall
  have hx1 := minX_le_of_mem hp
  have hx2 := le_maxX_of_mem hp
  have hy1 := minY_le_of_mem hp
  have hy2 := le_maxY_of_mem hp
  have hiw : (0 : ℚ) ≤ innerW width := le_trans (by norm_num) (le_max_left 10 _)
  have hih : (0 : ℚ) ≤ innerH height := le_trans (by norm_num) (le_max_left 10 _)
  obtain ⟨hsx0, hsx1⟩ := ratio_bounds hx1 hx2
  obtain ⟨hsy0, hsy1⟩ := ratio_bounds hy1 hy2
  have hmulx0 : 0 ≤ (p.timestampMs - minX all) / jsOrOne (maxX all - minX all) * innerW width :=
    mul_nonneg hsx0 hiw
  have hmulx1 : (p.timestampMs - minX all) / jsOrOne (maxX all - minX all) * innerW width ≤
      innerW width := by
    have h := mul_le_mul_of_nonneg_right hsx1 hiw
    linarith
  have hmuly0 : 0 ≤ (p.value - minY all) / jsOrOne (maxY all - minY all) * innerH height :=
    mul_nonneg hsy0 hih
  have hmuly1 : (p.value - minY all) / jsOrOne (maxY all - minY all) * innerH height ≤
      innerH height := by
    have h := mul_le_mul_of_nonneg_right hsy1 hih
    linarith
  refine ⟨⟨hx1, hx2, hy1, hy2⟩, ?_, ?_, ?_, ?_⟩ <;>
    simp only [mapX, mapY, dx, dy] at * <;> linarith

theorem sparkline_points_mapped_into_plot_witness :
    ((⟨0, 1⟩ : SeriesPoint) ∈
        filterNumeric [⟨0, some 1⟩, ⟨10, some 3⟩] ++ filterNumeric []) ∧
      ((minX (filterNumeric [⟨0, some 1⟩, ⟨10, some 3⟩] ++ filterNumeric []) ≤ (0 : ℚ) ∧
        (0 : ℚ) ≤ maxX (filterNumeric [⟨0, some 1⟩, ⟨10, some 3⟩] ++ filterNumeric []) ∧
        minY (filterNumeric [⟨0, some 1⟩, ⟨10, some 3⟩] ++ filterNumeric []) ≤ (1 : ℚ) ∧
        (1 : ℚ) ≤ maxY (filterNumeric [⟨0, some 1⟩, ⟨10, some 3⟩] ++ filterNumeric [])) ∧
       marginLeft ≤ mapX (filterNumeric [⟨0, some 1⟩, ⟨10, some 3⟩] ++ filterNumeric []) 800 0 ∧
       mapX (filterNumeric [⟨0, some 1⟩, ⟨10, some 3⟩] ++ filterNumeric []) 800 0 ≤
         marginLeft + innerW 800 ∧
       marginTop ≤ mapY (filterNumeric [⟨0, some 1⟩, ⟨10, some 3⟩] ++ filterNumeric []) 260 1 ∧
       mapY (filterNumeric [⟨0, some 1⟩, ⟨10, some 3⟩] ++ filterNumeric []) 260 1 ≤
         marginTop + innerH 260) :=
  ⟨by simp [filterNumeric],
   sparkline_points_mapped_into_plot [⟨0, some 1⟩, ⟨10, some 3⟩] [] 800 260 ⟨0, 1⟩
     (by simp [filterNumeric])⟩

/-- C7: `checkAnomaly` performs no client-side anomaly computation: it
submits exactly the body `{ sites, threshold_percent }` to the backend
at `/anomaly/check`, and on success returns the backend's response data
unchanged. -/
theorem checkAnomaly_thin_client {Data Err : Type} (post : PostRequest → Except Err Data)
    (extractMessage : Err → String) (sites : List String) (thresholdPercent : ℚ) :
    (checkAnomalyRequest sites thresholdPercent).path = "/anomaly/check" ∧
    (checkAnomalyRequest sites thresholdPercent).body.sites = sites ∧
    (checkAnomalyRequest sites thresholdPercent).body.threshold_percent = thresholdPercent ∧
    ∀ data : Data, post (checkAnomalyRequest sites thresholdPercent) = .ok data →
      checkAnomaly post extractMessage sites thresholdPercent = .ok data := by
  refine ⟨rfl, rfl, rfl, ?_⟩
  intro data h
  unfold checkAnomaly
  rw [h]

/-- C10: `triggerTrainingBulk` called with an empty or missing station
list returns immediately and successfully, issuing no HTTP request. -/
theorem triggerTrainingBulk_empty_no_request {Err : Type}
    (get : GetRequest → Except Err Unit) (extractMessage : Err → String) :
    triggerTrainingBulk get extractMessage none = ([], .ok ()) ∧
    triggerTrainingBulk get extractMessage (some []) = ([], .ok ()) :=
  ⟨rfl, rfl⟩
